import Mathlib

/-
  Shallow embedding of the timecard repository (src/timecard.py, src/interface.py).

  The SQLite tables `timecards` and `punches` are modelled as lists of records
  inside a DBState; `current_timestamp` is the `now` field (seconds since an
  arbitrary epoch); SQLite rowid assignment is modelled by `nextTimecardId` and
  `nextPunchId` counters starting at 1. SQLite does not enforce the
  `references timecards(id)` foreign key (the code never issues the
  `foreign_keys` pragma), so inserts into `punches` succeed regardless of
  whether the referenced timecard exists, exactly as in the source.
-/

namespace Timecard

/-- A row of the `timecards` table (timecard.py, init_tables). -/
structure TimecardRec where
  id : Nat
  owner : String
  descr : String
  active : Bool
  created : Nat
  reported : Option Nat
  deriving Repr, DecidableEq

/-- A row of the `punches` table (timecard.py, init_tables). -/
structure PunchRec where
  id : Nat
  timecard : Nat
  descr : String
  paid : Bool
  active : Bool
  time_in : Nat
  time_out : Option Nat
  deriving Repr, DecidableEq

/-- The persistent store: both tables, the rowid counters and the clock. -/
structure DBState where
  timecards : List TimecardRec
  punches : List PunchRec
  nextTimecardId : Nat
  nextPunchId : Nat
  now : Nat
  deriving Repr, DecidableEq

/-- Python `if not arg: arg = dflt` on an optional string: both `None` and
the empty string fall back to the default. -/
def resolveArg (arg : Option String) (dflt : String) : String :=
  match arg with
  | none => dflt
  | some v => if v = "" then dflt else v

/-- `update timecards set active = false where owner = ?` -/
def deactivateOwnerTimecards (owner : String) (tcs : List TimecardRec) : List TimecardRec :=
  tcs.map (fun t => if t.owner = owner then { t with active := false } else t)

/-- `order by created desc` as a stable insertion sort (descending). -/
def insertByCreatedDesc (t : TimecardRec) : List TimecardRec → List TimecardRec
  | [] => [t]
  | u :: us => if t.created > u.created then t :: u :: us else u :: insertByCreatedDesc t us

/-- Stable sort of timecards by `created`, descending. -/
def sortByCreatedDesc : List TimecardRec → List TimecardRec
  | [] => []
  | t :: ts => insertByCreatedDesc t (sortByCreatedDesc ts)

/-- Row predicate of the post-insert lookup in create_timecard:
`where owner = ? and descr = ? and active = true`. -/
def timecardMatches (owner descr : String) (t : TimecardRec) : Bool :=
  decide (t.owner = owner) && decide (t.descr = descr) && t.active

/-- timecard.py create_timecard: fills defaults (system user, week label),
deactivates every timecard of the owner, inserts the new active card, then
re-queries for the active owner-and-descr match ordered by created desc and
returns its id (or None when the lookup finds nothing). -/
def create_timecard (s : DBState) (ownerArg descrArg : Option String)
    (sysUser weekLabel : String) : DBState × Option Nat :=
  let owner := resolveArg ownerArg sysUser
  let descr := resolveArg descrArg ("Week " ++ weekLabel)
  let newCard : TimecardRec :=
    { id := s.nextTimecardId, owner := owner, descr := descr,
      active := true, created := s.now, reported := none }
  let s' : DBState :=
    { s with timecards := deactivateOwnerTimecards owner s.timecards ++ [newCard],
             nextTimecardId := s.nextTimecardId + 1 }
  let found := sortByCreatedDesc (s'.timecards.filter (timecardMatches owner descr))
  (s', (found.head?).map (fun t => t.id))

/-- Filtering a mapped list by a predicate that the mapping falsifies
everywhere yields the empty list. -/
theorem filter_map_of_none {α β : Type} (f : α → β) (pred : β → Bool) (l : List α)
    (h : ∀ a, pred (f a) = false) : (l.map f).filter pred = [] := by
  induction l with
  | nil => rfl
  | cons x xs ih => simp [List.map_cons, List.filter_cons, h x, ih]

/-- Filtering a mapped list is unchanged when the map preserves the predicate
and fixes every element satisfying it. -/
theorem filter_map_of_id {α : Type} (f : α → α) (pred : α → Bool) (l : List α)
    (hp : ∀ a, pred (f a) = pred a) (hf : ∀ a, pred a = true → f a = a) :
    (l.map f).filter pred = l.filter pred := by
  induction l with
  | nil => rfl
  | cons x xs ih =>
    cases hpx : pred x
    · simp [List.map_cons, List.filter_cons, hp x, hpx, ih]
    · simp [List.map_cons, List.filter_cons, hp x, hpx, hf x hpx, ih]

theorem deactivateOwner_no_active (owner : String) (tcs : List TimecardRec) :
    (deactivateOwnerTimecards owner tcs).filter
      (fun t => decide (t.owner = owner) && t.active) = [] := by
  apply filter_map_of_none
  intro t
  by_cases h : t.owner = owner <;> simp [h]

theorem deactivateOwner_no_match (owner descr : String) (tcs : List TimecardRec) :
    (deactivateOwnerTimecards owner tcs).filter (timecardMatches owner descr) = [] := by
  apply filter_map_of_none
  intro t
  by_cases h : t.owner = owner <;> simp [timecardMatches, h]

theorem deactivateOwner_keeps_others (owner : String) (tcs : List TimecardRec) :
    (deactivateOwnerTimecards owner tcs).filter (fun t => !decide (t.owner = owner))
      = tcs.filter (fun t => !decide (t.owner = owner)) := by
  apply filter_map_of_id
  · intro t
    by_cases h : t.owner = owner <;> simp [h]
  · intro t ht
    by_cases h : t.owner = owner <;> simp [h] at ht ⊢

/-- C1: For every owner and description, after create_timecard(owner, descr)
completes, exactly one timecard whose owner field equals that (resolved)
owner has active = true — namely the freshly inserted record — the call
returns the id of that record, and the timecards of every other owner are
unchanged. -/
theorem create_timecard_unique_active (s : DBState) (ownerArg descrArg : Option String)
    (sysUser weekLabel : String) :
    (create_timecard s ownerArg descrArg sysUser weekLabel).1.timecards.filter
        (fun t => decide (t.owner = resolveArg ownerArg sysUser) && t.active)
      = [{ id := s.nextTimecardId, owner := resolveArg ownerArg sysUser,
           descr := resolveArg descrArg ("Week " ++ weekLabel), active := true,
           created := s.now, reported := none }] ∧
    (create_timecard s ownerArg descrArg sysUser weekLabel).2 = some s.nextTimecardId ∧
    (create_timecard s ownerArg descrArg sysUser weekLabel).1.timecards.filter
        (fun t => !decide (t.owner = resolveArg ownerArg sysUser))
      = s.timecards.filter (fun t => !decide (t.owner = resolveArg ownerArg sysUser)) := by
  refine ⟨?_, ?_, ?_⟩
  · simp [create_timecard, List.filter_append, deactivateOwner_no_active]
  · simp [create_timecard, List.filter_append, deactivateOwner_no_match,
      timecardMatches, sortByCreatedDesc, insertByCreatedDesc]
  · simp [create_timecard, List.filter_append, deactivateOwner_keeps_others]

/-- `order by time_in desc` as a stable insertion sort (descending). -/
def insertByTimeInDesc (p : PunchRec) : List PunchRec → List PunchRec
  | [] => [p]
  | q :: qs => if p.time_in > q.time_in then p :: q :: qs else q :: insertByTimeInDesc p qs

/-- Stable sort of punches by `time_in`, descending. -/
def sortByTimeInDesc : List PunchRec → List PunchRec
  | [] => []
  | p :: ps => insertByTimeInDesc p (sortByTimeInDesc ps)

/-- Row predicate `where timecard = ? and active = true`. -/
def isActiveFor (tc : Nat) (p : PunchRec) : Bool :=
  decide (p.timecard = tc) && p.active

/-- timecard.py get_active_punch_id:
`select id from punches where timecard = ? and active = true order by time_in desc limit 1`. -/
def get_active_punch_id (s : DBState) (tc : Nat) : Option Nat :=
  ((sortByTimeInDesc (s.punches.filter (isActiveFor tc))).head?).map (fun p => p.id)

/-- timecard.py get_punch: `select * from punches where id = ?`, fetchone. -/
def get_punch (s : DBState) (pid : Nat) : Option PunchRec :=
  (s.punches.filter (fun p => decide (p.id = pid))).head?

/-- `update punches set active = false where timecard = ?` -/
def deactivatePunches (tc : Nat) (ps : List PunchRec) : List PunchRec :=
  ps.map (fun p => if p.timecard = tc then { p with active := false } else p)

/-- timecard.py punch_in: defaults the description, deactivates every punch of
the timecard, inserts a fresh active punch with time_in = now and no time_out,
and returns get_punch(get_active_punch_id(timecard_id)). No existence check
on the timecard is performed. -/
def punch_in (s : DBState) (tc : Nat) (paid : Bool) (descrArg : Option String) :
    DBState × Option PunchRec :=
  let descr := descrArg.getD "Time Worked"
  let newPunch : PunchRec :=
    { id := s.nextPunchId, timecard := tc, descr := descr, paid := paid,
      active := true, time_in := s.now, time_out := none }
  let s' : DBState :=
    { s with punches := deactivatePunches tc s.punches ++ [newPunch],
             nextPunchId := s.nextPunchId + 1 }
  (s', (get_active_punch_id s' tc).bind (fun pid => get_punch s' pid))

/-- `update punches set time_out = current_timestamp, active = false where id = ?` -/
def closePunch (pid now : Nat) (ps : List PunchRec) : List PunchRec :=
  ps.map (fun p => if p.id = pid then { p with time_out := some now, active := false } else p)

/-- timecard.py punch_out: looks up the active punch id; Python truthiness
(`if punch_id:`) guards the update, so both a missing id and id 0 skip the
write; returns get_punch of the looked-up id (get_punch(None) is None). -/
def punch_out (s : DBState) (tc : Nat) : DBState × Option PunchRec :=
  match get_active_punch_id s tc with
  | none => (s, none)
  | some pid =>
    if pid ≠ 0 then
      let s' : DBState := { s with punches := closePunch pid s.now s.punches }
      (s', get_punch s' pid)
    else
      (s, get_punch s pid)

/-- interface.py perform_punch, punch type double: punch_out immediately
followed by punch_in on the same timecard. -/
def double_punch (s : DBState) (tc : Nat) (paid : Bool) (descrArg : Option String) : DBState :=
  (punch_in (punch_out s tc).1 tc paid descrArg).1

/-- Number of active punches belonging to a timecard. -/
def activePunchCount (s : DBState) (tc : Nat) : Nat :=
  s.punches.countP (isActiveFor tc)

/-- One lifecycle call of the punch API, with a clock step to let the stored
timestamps take arbitrary values between calls. -/
inductive PunchOp where
  | tick (t : Nat)
  | pin (tc : Nat) (paid : Bool) (descr : Option String)
  | pout (tc : Nat)
  | double (tc : Nat) (paid : Bool) (descr : Option String)
  deriving Repr, DecidableEq

/-- State reached by one call. -/
def applyOp (s : DBState) : PunchOp → DBState
  | .tick t => { s with now := t }
  | .pin tc paid descr => (punch_in s tc paid descr).1
  | .pout tc => (punch_out s tc).1
  | .double tc paid descr => double_punch s tc paid descr

/-- State reached by a sequence of calls. -/
def execOps (s : DBState) : List PunchOp → DBState
  | [] => s
  | op :: ops => execOps (applyOp s op) ops

theorem countP_deactivatePunches_self (tc : Nat) (ps : List PunchRec) :
    (deactivatePunches tc ps).countP (isActiveFor tc) = 0 := by
  rw [deactivatePunches, List.countP_map, List.countP_eq_zero]
  intro p _
  by_cases h : p.timecard = tc <;> simp [isActiveFor, h]

theorem countP_deactivatePunches_other (tc tc' : Nat) (h : tc' ≠ tc) (ps : List PunchRec) :
    (deactivatePunches tc ps).countP (isActiveFor tc') = ps.countP (isActiveFor tc') := by
  rw [deactivatePunches, List.countP_map]
  apply List.countP_congr
  intro p _
  by_cases hp : p.timecard = tc
  · simp [isActiveFor, hp, Function.comp, Ne.symm h]
  · simp [isActiveFor, hp, Function.comp]

theorem punch_in_activeCount (s : DBState) (tc tc' : Nat) (paid : Bool)
    (descrArg : Option String) (h : activePunchCount s tc' ≤ 1) :
    activePunchCount (punch_in s tc paid descrArg).1 tc' ≤ 1 := by
  by_cases htc : tc' = tc
  · subst htc
    simp [punch_in, activePunchCount, List.countP_append,
      countP_deactivatePunches_self, isActiveFor]
  · have htc' : tc ≠ tc' := fun he => htc he.symm
    simpa [punch_in, activePunchCount, List.countP_append,
      countP_deactivatePunches_other tc tc' htc, isActiveFor, List.countP_cons, htc'] using h

theorem punch_out_activeCount (s : DBState) (tc tc' : Nat)
    (h : activePunchCount s tc' ≤ 1) :
    activePunchCount (punch_out s tc).1 tc' ≤ 1 := by
  have hmono : ∀ pid, List.countP (isActiveFor tc') (closePunch pid s.now s.punches)
      ≤ List.countP (isActiveFor tc') s.punches := by
    intro pid
    unfold closePunch
    rw [List.countP_map]
    apply List.countP_mono_left
    intro p _ hp
    by_cases hid : p.id = pid
    · simp [isActiveFor, hid, Function.comp] at hp
    · simpa [isActiveFor, hid, Function.comp] using hp
  cases hpid : get_active_punch_id s tc with
  | none =>
    have hs : (punch_out s tc).1 = s := by simp [punch_out, hpid]
    rw [hs]; exact h
  | some pid =>
    by_cases hz : pid ≠ 0
    · have hs : (punch_out s tc).1 = { s with punches := closePunch pid s.now s.punches } := by
        simp [punch_out, hpid, hz]
      rw [hs]
      exact le_trans (hmono pid) h
    · have hs : (punch_out s tc).1 = s := by simp [punch_out, hpid, hz]
      rw [hs]; exact h

theorem applyOp_activeCount (s : DBState) (tc' : Nat) (op : PunchOp)
    (h : activePunchCount s tc' ≤ 1) :
    activePunchCount (applyOp s op) tc' ≤ 1 := by
  cases op with
  | tick t => simpa [applyOp, activePunchCount] using h
  | pin tc paid descr => exact punch_in_activeCount s tc tc' paid descr h
  | pout tc => exact punch_out_activeCount s tc tc' h
  | double tc paid descr =>
    exact punch_in_activeCount _ tc tc' paid descr (punch_out_activeCount s tc tc' h)

/-- C2: For every timecard and every sequence of punch_in, punch_out and
double-punch calls (interleaved with arbitrary clock steps), at most one
punch of that timecard is active after the sequence; since any observation
point is itself reached by such a sequence, the invariant holds after every
call. -/
theorem active_punch_invariant (s : DBState) (tc : Nat)
    (h : activePunchCount s tc ≤ 1) (ops : List PunchOp) :
    activePunchCount (execOps s ops) tc ≤ 1 := by
  induction ops generalizing s with
  | nil => simpa [execOps] using h
  | cons op ops ih => exact ih (applyOp s op) (applyOp_activeCount s tc op h)

/-- A fresh, empty store with the clock at 100. -/
def demoEmpty : DBState :=
  { timecards := [], punches := [], nextTimecardId := 1, nextPunchId := 1, now := 100 }

/-- A sample call sequence: punch in, punch out, double punch, punch out. -/
def demoOps : List PunchOp :=
  [PunchOp.pin 1 true none, PunchOp.tick 200, PunchOp.pout 1,
   PunchOp.tick 300, PunchOp.double 1 false (some "Lunch"),
   PunchOp.tick 400, PunchOp.pout 1]

/-- C2 witness: the invariant theorem applied to a concrete store and call
sequence. -/
theorem active_punch_invariant_witness :
    activePunchCount demoEmpty 1 ≤ 1 ∧ activePunchCount (execOps demoEmpty demoOps) 1 ≤ 1 :=
  ⟨by decide, active_punch_invariant demoEmpty 1 (by decide) demoOps⟩

/-- C8: punch_out on a timecard with no active punch returns None and leaves
the store, in particular every punch record, unchanged. -/
theorem punch_out_no_active_noop (s : DBState) (tc : Nat)
    (h : s.punches.filter (isActiveFor tc) = []) :
    punch_out s tc = (s, none) := by
  unfold punch_out get_active_punch_id
  rw [h]
  rfl

/-- The timecard record of the demo store below. -/
def demoCard : TimecardRec :=
  { id := 1, owner := "alice", descr := "Week 1", active := true,
    created := 50, reported := none }

/-- A store with one timecard and one already-closed punch. -/
def demoClosedState : DBState :=
  { timecards := [demoCard],
    punches := [{ id := 1, timecard := 1, descr := "Time Worked", paid := true,
                  active := false, time_in := 60, time_out := some 70 }],
    nextTimecardId := 2, nextPunchId := 2, now := 100 }

/-- C8 witness: punch_out applied to a concrete store whose only punch is
closed. -/
theorem punch_out_no_active_noop_witness :
    demoClosedState.punches.filter (isActiveFor 1) = [] ∧
      punch_out demoClosedState 1 = (demoClosedState, none) :=
  ⟨by decide, punch_out_no_active_noop demoClosedState 1 (by decide)⟩

/-- timecard.py get_timecard: `select * from timecards where id = ?`, fetchone. -/
def get_timecard (s : DBState) (tc : Nat) : Option TimecardRec :=
  (s.timecards.filter (fun t => decide (t.id = tc))).head?

/-- timecard.py mark_timecard_reported: fetches the timecard, then runs
`update timecards set reported = current_timestamp where id = ?` only when
the fetched record is not active, and returns the constant True. When no
record exists, the Python code evaluates `timecard['active']` on None and
dies with a TypeError; that crash is modelled as `none`. -/
def mark_timecard_reported (s : DBState) (tc : Nat) : Option (DBState × Bool) :=
  match get_timecard s tc with
  | none => none
  | some card =>
    if !card.active then
      let updated :=
        s.timecards.map (fun t => if t.id = tc then { t with reported := some s.now } else t)
      some ({ s with timecards := updated }, true)
    else
      some (s, true)

/-- C5: mark_timecard_reported on an existing timecard whose active field is
true performs no write at all: the store is returned unchanged (so the
reported field is mutated only when active is false at call time). -/
theorem mark_reported_active_no_write (s : DBState) (tc : Nat) (card : TimecardRec)
    (hget : get_timecard s tc = some card) (hact : card.active = true) :
    mark_timecard_reported s tc = some (s, true) := by
  simp [mark_timecard_reported, hget, hact]

/-- C5 witness: the no-write theorem applied to a concrete store with an
active timecard. -/
theorem mark_reported_active_no_write_witness :
    get_timecard demoClosedState 1 = some demoCard ∧
    mark_timecard_reported demoClosedState 1 = some (demoClosedState, true) :=
  ⟨by decide,
   mark_reported_active_no_write demoClosedState 1 demoCard (by decide) (by decide)⟩

/-- C6: mark_timecard_reported on any existing timecard returns True,
whether or not the reported write happened. -/
theorem mark_reported_returns_true (s : DBState) (tc : Nat) (card : TimecardRec)
    (hget : get_timecard s tc = some card) :
    (mark_timecard_reported s tc).map (fun r => r.2) = some true := by
  by_cases hact : card.active
  · simp [mark_timecard_reported, hget, hact]
  · have hb : card.active = false := by simpa using hact
    simp [mark_timecard_reported, hget, hb]

/-- C6 witness: the constant-True theorem applied to a concrete store. -/
theorem mark_reported_returns_true_witness :
    get_timecard demoClosedState 1 = some demoCard ∧
    (mark_timecard_reported demoClosedState 1).map (fun r => r.2) = some true :=
  ⟨by decide, mark_reported_returns_true demoClosedState 1 demoCard (by decide)⟩

/-- C10: mark_timecard_reported on an id with no timecard record produces no
boolean result at all: the Python code subscripts None and raises an untyped
TypeError, modelled here as the none outcome. -/
theorem mark_reported_missing_no_result (s : DBState) (tc : Nat)
    (h : get_timecard s tc = none) :
    mark_timecard_reported s tc = none := by
  simp [mark_timecard_reported, h]

/-- C10 witness: the crash theorem applied to an empty store. -/
theorem mark_reported_missing_no_result_witness :
    get_timecard demoEmpty 7 = none ∧ mark_timecard_reported demoEmpty 7 = none :=
  ⟨by decide, mark_reported_missing_no_result demoEmpty 7 (by decide)⟩

/-- The punch row inserted by punch_in. -/
def freshPunch (s : DBState) (tc : Nat) (paid : Bool) (descrArg : Option String) : PunchRec :=
  { id := s.nextPunchId, timecard := tc, descr := descrArg.getD "Time Worked",
    paid := paid, active := true, time_in := s.now, time_out := none }

theorem deactivatePunches_filter_active (tc : Nat) (ps : List PunchRec) :
    (deactivatePunches tc ps).filter (isActiveFor tc) = [] := by
  apply filter_map_of_none
  intro p
  by_cases h : p.timecard = tc <;> simp [isActiveFor, h]

theorem deactivatePunches_filter_fresh (ps : List PunchRec) (n : Nat)
    (hids : ∀ p ∈ ps, p.id < n) (tc : Nat) :
    (deactivatePunches tc ps).filter (fun p => decide (p.id = n)) = [] := by
  rw [List.filter_eq_nil_iff]
  intro p hp
  rcases List.mem_map.mp hp with ⟨q, hq, rfl⟩
  have hlt := hids q hq
  by_cases h : q.timecard = tc <;> simp [h] <;> omega

/-- C7 counterexample: on an empty store, timecard 42 does not exist, yet
punch_in on id 42 returns a punch (not None) and appends a punch row, because
the code never checks existence and SQLite does not enforce the foreign key. -/
theorem punch_in_missing_not_silent :
    get_timecard demoEmpty 42 = none ∧
    (punch_in demoEmpty 42 true none).2 ≠ none ∧
    (punch_in demoEmpty 42 true none).1.punches ≠ demoEmpty.punches := by
  refine ⟨by decide, by decide, by decide⟩

/-- The store state punch_in leaves behind. -/
def punch_in_state (s : DBState) (tc : Nat) (paid : Bool) (descrArg : Option String) : DBState :=
  { s with punches := deactivatePunches tc s.punches ++ [freshPunch s tc paid descrArg],
           nextPunchId := s.nextPunchId + 1 }

theorem get_active_punch_id_eq (s2 : DBState) (tc : Nat) (p : PunchRec)
    (hp : s2.punches.filter (isActiveFor tc) = [p]) :
    get_active_punch_id s2 tc = some p.id := by
  unfold get_active_punch_id
  rw [hp]
  rfl

theorem get_punch_eq (s2 : DBState) (pid : Nat) (p : PunchRec)
    (hp : s2.punches.filter (fun q => decide (q.id = pid)) = [p]) :
    get_punch s2 pid = some p := by
  unfold get_punch
  rw [hp]
  rfl

/-- Full characterization of punch_in when punch ids are fresh (the rowid
discipline SQLite maintains): all punches of the timecard are deactivated,
the fresh punch is appended, and the fresh punch itself is returned. -/
theorem punch_in_result (s : DBState) (tc : Nat) (paid : Bool) (descrArg : Option String)
    (hids : ∀ p ∈ s.punches, p.id < s.nextPunchId) :
    punch_in s tc paid descrArg
      = (punch_in_state s tc paid descrArg, some (freshPunch s tc paid descrArg)) := by
  have hactive : (deactivatePunches tc s.punches ++ [freshPunch s tc paid descrArg]).filter
      (isActiveFor tc) = [freshPunch s tc paid descrArg] := by
    rw [List.filter_append, deactivatePunches_filter_active]
    simp [isActiveFor, freshPunch]
  have hid2 : (deactivatePunches tc s.punches ++ [freshPunch s tc paid descrArg]).filter
      (fun p => decide (p.id = s.nextPunchId)) = [freshPunch s tc paid descrArg] := by
    rw [List.filter_append, deactivatePunches_filter_fresh s.punches s.nextPunchId hids]
    simp [freshPunch]
  have h1 : get_active_punch_id (punch_in_state s tc paid descrArg) tc
      = some (freshPunch s tc paid descrArg).id :=
    get_active_punch_id_eq _ tc _ hactive
  have h2 : get_punch (punch_in_state s tc paid descrArg) (freshPunch s tc paid descrArg).id
      = some (freshPunch s tc paid descrArg) :=
    get_punch_eq _ _ _ hid2
  show (punch_in_state s tc paid descrArg,
        (get_active_punch_id (punch_in_state s tc paid descrArg) tc).bind
          (fun pid => get_punch (punch_in_state s tc paid descrArg) pid))
      = (punch_in_state s tc paid descrArg, some (freshPunch s tc paid descrArg))
  rw [h1]
  exact congrArg _ h2

/-- C7 amended: punch_in on a timecard id with no timecard record does not
fail silently; it behaves exactly as on an existing id: it deactivates the
punches of that id, inserts a fresh active punch referencing the missing
timecard, and returns that punch. -/
theorem punch_in_missing_inserts (s : DBState) (tc : Nat) (paid : Bool)
    (descrArg : Option String)
    (_hmissing : get_timecard s tc = none)
    (hids : ∀ p ∈ s.punches, p.id < s.nextPunchId) :
    (punch_in s tc paid descrArg).2 = some (freshPunch s tc paid descrArg) ∧
    (punch_in s tc paid descrArg).1.punches
      = deactivatePunches tc s.punches ++ [freshPunch s tc paid descrArg] := by
  rw [punch_in_result s tc paid descrArg hids]
  exact ⟨rfl, rfl⟩

/-- C7 amended witness: the insert theorem applied to the empty store and the
missing id 42. -/
theorem punch_in_missing_inserts_witness :
    get_timecard demoEmpty 42 = none ∧
    (punch_in demoEmpty 42 true none).2 = some (freshPunch demoEmpty 42 true none) ∧
    (punch_in demoEmpty 42 true none).1.punches
      = deactivatePunches 42 demoEmpty.punches ++ [freshPunch demoEmpty 42 true none] :=
  ⟨by decide,
   (punch_in_missing_inserts demoEmpty 42 true none (by decide) (by decide)).1,
   (punch_in_missing_inserts demoEmpty 42 true none (by decide) (by decide)).2⟩

/-- Row predicate of get_completed_punches_by_timecard:
`where time_out is not null and active = false and timecard = ?`. -/
def isCompletedFor (tc : Nat) (p : PunchRec) : Bool :=
  p.time_out.isSome && !p.active && decide (p.timecard = tc)

/-- timecard.py get_completed_punches_by_timecard; rows_to_dicts maps an
empty row set to None. -/
def get_completed_punches_by_timecard (s : DBState) (tc : Nat) : Option (List PunchRec) :=
  let ps := s.punches.filter (isCompletedFor tc)
  if ps.isEmpty then none else some ps

/-- Calendar day of a stored timestamp. The code builds the grouping key
from `.date()` of the datetime that sqlite_ts_to_datetime reconstructed with
a zero UTC offset, so the day is the UTC day of the stored instant. -/
def utcDay (t : Nat) : Nat := t / 86400

/-- Duration of a punch inside get_paid_time_summary: time_out - time_in
when time_out is recorded, otherwise time_in - time_in. -/
def punchHours (p : PunchRec) : Int :=
  match p.time_out with
  | some t => (t : Int) - (p.time_in : Int)
  | none => (p.time_in : Int) - (p.time_in : Int)

/-- One value of the report mapping of get_paid_time_summary: the insertion
key (the day of time_in), the stored date field (the first time_in of the
group) and the accumulated hours. -/
structure SummaryEntry where
  dateKey : Nat
  date : Nat
  hours : Int
  deriving Repr, DecidableEq

/-- One accumulation into the report mapping, preserving insertion order as
a Python dict does. -/
def addToReport (report : List SummaryEntry) (key tin : Nat) (hrs : Int) : List SummaryEntry :=
  if report.any (fun e => decide (e.dateKey = key)) then
    report.map (fun e => if e.dateKey = key then { e with hours := e.hours + hrs } else e)
  else
    report ++ [{ dateKey := key, date := tin, hours := hrs }]

/-- The loop body of get_paid_time_summary: unpaid punches are skipped, paid
ones are accumulated under the day of their time_in. -/
def summaryStep (report : List SummaryEntry) (p : PunchRec) : List SummaryEntry :=
  if !p.paid then report
  else addToReport report (utcDay p.time_in) p.time_in (punchHours p)

/-- timecard.py get_paid_time_summary. -/
def get_paid_time_summary (s : DBState) (tc : Nat) : Option (List SummaryEntry) :=
  match get_completed_punches_by_timecard s tc with
  | none => none
  | some punches => some (punches.foldl summaryStep [])

/-- Grand total of a report. -/
def sumHours (entries : List SummaryEntry) : Int :=
  (entries.map (fun e => e.hours)).sum

/-- Number of report entries carrying a given day key. -/
def keyCount (report : List SummaryEntry) (k : Nat) : Nat :=
  report.countP (fun e => decide (e.dateKey = k))

/-- The paid completed punches of a timecard. -/
def paidCompleted (s : DBState) (tc : Nat) : List PunchRec :=
  s.punches.filter (fun p => p.paid && isCompletedFor tc p)

theorem sumHours_cons (e : SummaryEntry) (es : List SummaryEntry) :
    sumHours (e :: es) = e.hours + sumHours es := by
  simp [sumHours]

theorem sumHours_map_bump (l : List SummaryEntry) (key : Nat) (hrs : Int) :
    sumHours (l.map (fun e => if e.dateKey = key then { e with hours := e.hours + hrs } else e))
      = sumHours l + (keyCount l key : Int) * hrs := by
  induction l with
  | nil => simp [sumHours, keyCount]
  | cons e es ih =>
    rw [List.map_cons, sumHours_cons, sumHours_cons, ih]
    by_cases h : e.dateKey = key
    · have hcnt : keyCount (e :: es) key = keyCount es key + 1 := by
        simp [keyCount, List.countP_cons, h]
      have hhead : (if e.dateKey = key then { e with hours := e.hours + hrs } else e).hours
          = e.hours + hrs := by rw [if_pos h]
      rw [hcnt, hhead]
      push_cast
      ring
    · have hcnt : keyCount (e :: es) key = keyCount es key := by
        simp [keyCount, List.countP_cons, h]
      have hhead : (if e.dateKey = key then { e with hours := e.hours + hrs } else e).hours
          = e.hours := by rw [if_neg h]
      rw [hcnt, hhead]
      ring

theorem keyCount_map_bump (l : List SummaryEntry) (key k : Nat) (hrs : Int) :
    keyCount (l.map (fun e => if e.dateKey = key then { e with hours := e.hours + hrs } else e)) k
      = keyCount l k := by
  unfold keyCount
  rw [List.countP_map]
  apply List.countP_congr
  intro e _
  by_cases h : e.dateKey = key <;> simp [h, Function.comp]

theorem keyCount_add_self (report : List SummaryEntry) (key tin : Nat) (hrs : Int) :
    keyCount (addToReport report key tin hrs) key
      = if keyCount report key = 0 then 1 else keyCount report key := by
  unfold addToReport
  by_cases hany : report.any (fun e => decide (e.dateKey = key)) = true
  · have hpos : 0 < keyCount report key := by
      unfold keyCount
      exact List.countP_pos_iff.mpr (List.any_eq_true.mp hany)
    rw [if_pos hany, keyCount_map_bump, if_neg (Nat.pos_iff_ne_zero.mp hpos)]
  · have hzero : List.countP (fun e => decide (e.dateKey = key)) report = 0 := by
      rw [List.countP_eq_zero]
      intro e he hp
      exact hany (List.any_eq_true.mpr ⟨e, he, hp⟩)
    rw [if_neg hany, if_pos (show keyCount report key = 0 from hzero)]
    unfold keyCount
    rw [List.countP_append, hzero]
    simp

theorem keyCount_add_other (report : List SummaryEntry) (key tin k : Nat) (hrs : Int)
    (hk : k ≠ key) :
    keyCount (addToReport report key tin hrs) k = keyCount report k := by
  unfold addToReport
  by_cases hany : report.any (fun e => decide (e.dateKey = key)) = true
  · rw [if_pos hany, keyCount_map_bump]
  · rw [if_neg hany]
    unfold keyCount
    rw [List.countP_append]
    simp [Ne.symm hk]

theorem keyCount_add_le_one (report : List SummaryEntry) (key tin k : Nat) (hrs : Int)
    (h : keyCount report k ≤ 1) :
    keyCount (addToReport report key tin hrs) k ≤ 1 := by
  by_cases hk : k = key
  · subst hk
    rw [keyCount_add_self]
    by_cases hz : keyCount report k = 0 <;> simp [hz, h]
  · rw [keyCount_add_other report key tin k hrs hk]
    exact h

theorem sumHours_add (report : List SummaryEntry) (key tin : Nat) (hrs : Int)
    (h : keyCount report key ≤ 1) :
    sumHours (addToReport report key tin hrs) = sumHours report + hrs := by
  unfold addToReport
  by_cases hany : report.any (fun e => decide (e.dateKey = key)) = true
  · have hpos : 0 < keyCount report key := by
      unfold keyCount
      exact List.countP_pos_iff.mpr (List.any_eq_true.mp hany)
    have hone : keyCount report key = 1 := le_antisymm h hpos
    rw [if_pos hany, sumHours_map_bump, hone]
    ring
  · rw [if_neg hany]
    unfold sumHours
    simp

theorem summaryStep_keyCount_le_one (report : List SummaryEntry) (p : PunchRec) (k : Nat)
    (h : keyCount report k ≤ 1) :
    keyCount (summaryStep report p) k ≤ 1 := by
  unfold summaryStep
  by_cases hp : p.paid
  · rw [if_neg (by simp [hp])]
    exact keyCount_add_le_one report (utcDay p.time_in) p.time_in k (punchHours p) h
  · rw [if_pos (by simp [hp])]
    exact h

theorem sumHours_fold (ps : List PunchRec) (report : List SummaryEntry)
    (h : ∀ k, keyCount report k ≤ 1) :
    sumHours (ps.foldl summaryStep report)
      = sumHours report + (ps.map (fun p => if p.paid then punchHours p else 0)).sum := by
  induction ps generalizing report with
  | nil => simp
  | cons p ps ih =>
    rw [List.foldl_cons, ih (summaryStep report p)
      (fun k => summaryStep_keyCount_le_one report p k (h k))]
    unfold summaryStep
    by_cases hp : p.paid
    · rw [if_neg (by simp [hp]),
        sumHours_add report (utcDay p.time_in) p.time_in (punchHours p) (h (utcDay p.time_in))]
      simp [hp]
      ring
    · rw [if_pos (by simp [hp])]
      simp [hp]

theorem keyCount_fold (ps : List PunchRec) (report : List SummaryEntry) (k : Nat) :
    keyCount (ps.foldl summaryStep report) k
      = if ps.any (fun p => p.paid && decide (utcDay p.time_in = k)) = true
          ∧ keyCount report k = 0
        then 1 else keyCount report k := by
  induction ps generalizing report with
  | nil => simp
  | cons p ps ih =>
    rw [List.foldl_cons, ih (summaryStep report p)]
    by_cases hp : p.paid
    · by_cases hd : utcDay p.time_in = k
      · have hstep : keyCount (summaryStep report p) k
            = if keyCount report k = 0 then 1 else keyCount report k := by
          unfold summaryStep
          rw [if_neg (by simp [hp]), ← hd, keyCount_add_self]
        rw [hstep]
        by_cases hz : keyCount report k = 0
        · simp [hz, hp, hd]
        · simp [hz, hp, hd]
      · have hstep : keyCount (summaryStep report p) k = keyCount report k := by
          unfold summaryStep
          rw [if_neg (by simp [hp])]
          exact keyCount_add_other report (utcDay p.time_in) p.time_in k (punchHours p)
            (fun he => hd he.symm)
        rw [hstep]
        simp [hp, hd]
    · have hstep : keyCount (summaryStep report p) k = keyCount report k := by
        unfold summaryStep
        rw [if_pos (by simp [hp])]
      rw [hstep]
      simp [hp]

theorem sum_ite_paid (l : List PunchRec) :
    (l.map (fun p => if p.paid then punchHours p else 0)).sum
      = ((l.filter (fun p => p.paid)).map punchHours).sum := by
  induction l with
  | nil => rfl
  | cons p ps ih =>
    by_cases hp : p.paid <;>
      simp [List.filter_cons, hp, ih]

theorem foldl_summaryStep_filter_paid (ps : List PunchRec) (r : List SummaryEntry) :
    ps.foldl summaryStep r = (ps.filter (fun p => p.paid)).foldl summaryStep r := by
  induction ps generalizing r with
  | nil => rfl
  | cons p ps ih =>
    by_cases hp : p.paid
    · rw [List.foldl_cons, List.filter_cons, if_pos (by simp [hp]), List.foldl_cons, ih]
    · have hstep : summaryStep r p = r := by
        unfold summaryStep
        rw [if_pos (by simp [hp])]
      rw [List.foldl_cons, hstep, List.filter_cons, if_neg (by simp [hp]), ih]

/-- C3: the report of get_paid_time_summary is computed from exactly the
paid, completed (time_out recorded and active = false) punches of the
timecard — unpaid and still-open punches contribute nothing — and its grand
total equals the sum of time_out - time_in over exactly those punches. -/
theorem summary_total_eq (s : DBState) (tc : Nat) :
    (get_paid_time_summary s tc).getD [] = (paidCompleted s tc).foldl summaryStep [] ∧
    sumHours ((get_paid_time_summary s tc).getD [])
      = ((paidCompleted s tc).map punchHours).sum := by
  have hfilter : (s.punches.filter (isCompletedFor tc)).filter (fun p => p.paid)
      = paidCompleted s tc := by
    rw [paidCompleted, List.filter_filter]
  by_cases hE : (s.punches.filter (isCompletedFor tc)).isEmpty = true
  · have hnone : get_paid_time_summary s tc = none := by
      simp [get_paid_time_summary, get_completed_punches_by_timecard, hE]
    have hnil : paidCompleted s tc = [] := by
      rw [← hfilter, List.isEmpty_iff.mp hE]
      rfl
    rw [hnone, hnil]
    exact ⟨rfl, rfl⟩
  · have hsome : get_paid_time_summary s tc
        = some ((s.punches.filter (isCompletedFor tc)).foldl summaryStep []) := by
      simp [get_paid_time_summary, get_completed_punches_by_timecard, hE]
    constructor
    · rw [hsome, Option.getD_some, foldl_summaryStep_filter_paid, hfilter]
    · rw [hsome, Option.getD_some,
        sumHours_fold (s.punches.filter (isCompletedFor tc)) [] (fun k => by simp [keyCount]),
        sum_ite_paid, hfilter]
      simp [sumHours]

/-- C4 (amended): get_paid_time_summary returns None exactly when the
timecard has no completed punch at all; otherwise the report carries exactly
one entry per distinct UTC day of time_in over the paid completed punches
(the day of the stored timestamp, not a local-timezone day). -/
theorem summary_shape (s : DBState) (tc : Nat) :
    (get_paid_time_summary s tc = none ↔ s.punches.filter (isCompletedFor tc) = []) ∧
    ∀ k, keyCount ((get_paid_time_summary s tc).getD []) k
      = if (paidCompleted s tc).any (fun p => decide (utcDay p.time_in = k)) = true
        then 1 else 0 := by
  have hany : ∀ k, (paidCompleted s tc).any (fun p => decide (utcDay p.time_in = k))
      = (s.punches.filter (isCompletedFor tc)).any (fun p => p.paid && decide (utcDay p.time_in = k)) := by
    intro k
    rw [paidCompleted, List.any_filter, List.any_filter]
    congr 1
    funext p
    by_cases h1 : p.paid <;> by_cases h2 : isCompletedFor tc p <;>
      by_cases h3 : utcDay p.time_in = k <;> simp [h1, h2, h3]
  by_cases hE : (s.punches.filter (isCompletedFor tc)).isEmpty = true
  · have hnone : get_paid_time_summary s tc = none := by
      simp [get_paid_time_summary, get_completed_punches_by_timecard, hE]
    refine ⟨by simp [hnone, List.isEmpty_iff.mp hE], ?_⟩
    intro k
    rw [hnone, hany, List.isEmpty_iff.mp hE]
    rfl
  · have hsome : get_paid_time_summary s tc
        = some ((s.punches.filter (isCompletedFor tc)).foldl summaryStep []) := by
      simp [get_paid_time_summary, get_completed_punches_by_timecard, hE]
    constructor
    · rw [hsome]
      constructor
      · intro h
        exact absurd h (by simp)
      · intro h
        exact absurd (List.isEmpty_iff.mpr h) hE
    · intro k
      rw [hsome, Option.getD_some, keyCount_fold, hany]
      have hz : keyCount ([] : List SummaryEntry) k = 0 := rfl
      by_cases ha : (s.punches.filter (isCompletedFor tc)).any
          (fun p => p.paid && decide (utcDay p.time_in = k)) = true <;>
        simp [ha, hz]

/-- A Python timedelta as its constructor normalizes it: days may be
negative, seconds lies in [0, 86400). The formatter reads only days and
seconds, so microseconds are not modelled. -/
structure Timedelta where
  days : Int
  seconds : Nat
  hsec : seconds < 86400

/-- interface.py format_duration line 529:
`total_seconds = duration.days * 86400 + duration.seconds`. -/
def totalSeconds (d : Timedelta) : Int := d.days * 86400 + d.seconds

/-- The hour count the formatter renders: Python floor division
`total_seconds // 3600`. -/
def duration_hr (d : Timedelta) : Int := Int.fdiv (totalSeconds d) 3600

/-- The minute count the formatter renders: Python
`(total_seconds % 3600) // 60` (floor modulo, then floor division). -/
def duration_min (d : Timedelta) : Int := Int.fdiv (Int.fmod (totalSeconds d) 3600) 60

/-- interface.py format_duration: hour and minute counts with singular unit
words exactly when the count equals 1. -/
def format_duration (d : Timedelta) : String :=
  (if duration_hr d = 1 then toString (duration_hr d) ++ " hr, "
   else toString (duration_hr d) ++ " hrs, ") ++
  (if duration_min d = 1 then toString (duration_min d) ++ " min"
   else toString (duration_min d) ++ " mins")

/-- Python timedelta(minutes=-1): normalized to days = -1, seconds = 86340,
for a total of -60 seconds. -/
def negOneMinute : Timedelta := ⟨-1, 86340, by decide⟩

/-- The zero duration. -/
def zeroDuration : Timedelta := ⟨0, 0, by decide⟩

/-- C9 counterexample: the negative duration of minus one minute renders as
"-1 hrs, 59 mins" under Python floor arithmetic, not as "0 hrs, 0 mins". -/
theorem format_duration_negative_not_zero :
    totalSeconds negOneMinute < 0 ∧
    format_duration negOneMinute = "-1 hrs, 59 mins" ∧
    format_duration negOneMinute ≠ "0 hrs, 0 mins" := by
  refine ⟨by decide, by decide, by decide⟩

/-- C9 amended: the zero duration renders as "0 hrs, 0 mins", while a
negative duration renders a negative (floor-divided) hour count instead. -/
theorem format_duration_zero_and_negative (d : Timedelta) :
    (totalSeconds d = 0 → format_duration d = "0 hrs, 0 mins") ∧
    (totalSeconds d < 0 → duration_hr d < 0) := by
  constructor
  · intro h
    unfold format_duration duration_hr duration_min
    rw [h]
    rfl
  · intro h
    unfold duration_hr
    rw [Int.fdiv_eq_ediv _ (by omega)]
    exact Int.ediv_neg' h (by omega)

/-- C9 amended witness: the theorem applied to the zero duration and to
minus one minute. -/
theorem format_duration_zero_and_negative_witness :
    (totalSeconds zeroDuration = 0 ∧ format_duration zeroDuration = "0 hrs, 0 mins") ∧
    (totalSeconds negOneMinute < 0 ∧ duration_hr negOneMinute < 0) :=
  ⟨⟨by decide, (format_duration_zero_and_negative zeroDuration).1 (by decide)⟩,
   ⟨by decide, (format_duration_zero_and_negative negOneMinute).2 (by decide)⟩⟩

/-- Modelled from the words of the spec, for comparison with the code: the
calendar day of a stored instant when displayed in a timezone shifted from
UTC by `offset` seconds. -/
def localDay (offset : Int) (t : Nat) : Int := Int.fdiv ((t : Int) + offset) 86400

/-- A store with one paid completed punch clocked in at 01:00 UTC of day 0. -/
def demoTzState : DBState :=
  { timecards := [demoCard],
    punches := [{ id := 1, timecard := 1, descr := "Time Worked", paid := true,
                  active := false, time_in := 3600, time_out := some 7200 }],
    nextTimecardId := 2, nextPunchId := 2, now := 10000 }

/-- C4 counterexample: the summary groups the demo punch under UTC day 0
(the day of the stored time_in), while its calendar date in a display
timezone five hours behind UTC (offset -18000 s) is day -1: the grouping is
not by the local/display-timezone date of time_in. -/
theorem summary_not_grouped_by_local_day :
    get_paid_time_summary demoTzState 1 = some [{ dateKey := 0, date := 3600, hours := 3600 }] ∧
    localDay (-18000) 3600 = -1 ∧
    ((0 : Int) ≠ -1) := by
  refine ⟨by decide, by decide, by decide⟩

end Timecard
